import Mathlib

/-!
# Verification of `table-dnd-sortable`

Shallow embedding of the drag-to-reorder controller for table rows:
the per-row displacement algorithm (`move`), the drop-resolution
algorithm (`drop`), the default activation gate, and the event wiring
(`setup` / `destroy`) as an explicit state-transition system.

Pixel quantities (heights, offsets, drag deltas) are modelled as exact
rationals `ℚ`; JavaScript's special values (infinities, NaN) that arise
in the default activation gate are modelled by the dedicated type
`JSNum`. Rows are identified by their index in the table's row sequence.
-/

namespace TableDnd

/-- `mapWithIndex f n l` maps `f` over `l` together with each element's
index, starting at `n`; `mapWithIndex f 0` embeds JavaScript's
`Array.prototype.map((x, index) => ...)`. -/
def mapWithIndex (f : ℕ → α → β) : ℕ → List α → List β
  | _, [] => []
  | n, a :: as => f n a :: mapWithIndex f (n + 1) as

@[simp] theorem mapWithIndex_nil (f : ℕ → α → β) (n : ℕ) :
    mapWithIndex f n [] = [] := rfl

@[simp] theorem mapWithIndex_cons (f : ℕ → α → β) (n : ℕ) (a : α) (as : List α) :
    mapWithIndex f n (a :: as) = f n a :: mapWithIndex f (n + 1) as := rfl

@[simp] theorem length_mapWithIndex (f : ℕ → α → β) :
    ∀ (n : ℕ) (l : List α), (mapWithIndex f n l).length = l.length
  | _, [] => rfl
  | n, _ :: as => congrArg Nat.succ (length_mapWithIndex f (n + 1) as)

theorem mapWithIndex_getD (f : ℕ → α → β) (d : α) (b : β) :
    ∀ (l : List α) (n i : ℕ), i < l.length →
      (mapWithIndex f n l).getD i b = f (n + i) (l.getD i d)
  | [], _, i, hi => absurd hi (by simp)
  | a :: as, n, 0, _ => by simp
  | a :: as, n, i + 1, hi => by
    have := mapWithIndex_getD f d b as (n + 1) i (by simpa using hi)
    simpa [Nat.add_comm, Nat.add_assoc, Nat.add_left_comm] using this

/-- The activation-time snapshot of a drag: the fields of the drag
context that the displacement algorithm reads
(`sourceIndex`, `sourceHeight`, `sourceMidPoint`, `bottomSeq`). -/
structure DragSnapshot where
  sourceIndex : ℕ
  sourceHeight : ℚ
  sourceMidPoint : ℚ
  bottomSeq : List ℚ
  deriving Repr, DecidableEq

/-- The per-row displacement computed by `move` for the row at `index`
with bottom boundary `bottom`, given drag offset `dy` (the body of the
`bottomSeq.map` callback in the source's `move`). -/
def rowDisplacement (ctx : DragSnapshot) (dy : ℚ) (index : ℕ) (bottom : ℚ) : ℚ :=
  if index = ctx.sourceIndex then dy
  else if dy * ((index : ℚ) - (ctx.sourceIndex : ℚ)) > 0 ∧
          dy * (ctx.sourceMidPoint + dy - bottom -
            (if dy < 0 then ctx.sourceHeight else 0)) > 0 then
    if dy > 0 then -ctx.sourceHeight else ctx.sourceHeight
  else 0

/-- `newMovementSeq` embeds the displacement computation of the source's
`move(dy)`: one displacement per entry of `bottomSeq`. -/
def newMovementSeq (ctx : DragSnapshot) (dy : ℚ) : List ℚ :=
  mapWithIndex (rowDisplacement ctx dy) 0 ctx.bottomSeq

@[simp] theorem length_newMovementSeq (ctx : DragSnapshot) (dy : ℚ) :
    (newMovementSeq ctx dy).length = ctx.bottomSeq.length :=
  length_mapWithIndex _ _ _

/-- Pointwise description of `newMovementSeq`. -/
theorem newMovementSeq_getD (ctx : DragSnapshot) (dy : ℚ) (i : ℕ)
    (hi : i < ctx.bottomSeq.length) :
    (newMovementSeq ctx dy).getD i 0 =
      rowDisplacement ctx dy i (ctx.bottomSeq.getD i 0) := by
  have := mapWithIndex_getD (rowDisplacement ctx dy) 0 0 ctx.bottomSeq 0 i hi
  simpa using this

/-- The upward walk of `drop`: decrement `targetIndex` while it is
positive and the entry immediately above it in `movememtSeq` is
strictly positive. -/
def walkUp (s : List ℚ) : ℕ → ℕ
  | 0 => 0
  | t + 1 => if 0 < s.getD t 0 then walkUp s t else t + 1

/-- The downward walk of `drop`: increment `targetIndex` while it is
below `length - 1` and the entry immediately below it in `movememtSeq`
is strictly negative. -/
def walkDown (s : List ℚ) (t : ℕ) : ℕ :=
  if h : t < s.length - 1 then
    if s.getD (t + 1) 0 < 0 then walkDown s (t + 1) else t
  else t
termination_by s.length - t
decreasing_by exact Nat.sub_lt_sub_left (Nat.lt_of_lt_of_le h (Nat.sub_le _ _)) (Nat.lt_succ_self t)

/-- `dropTargetIndex` embeds the target-index resolution of the
source's `drop`: walk up from `sourceIndex`, and only if the upward
walk did not move, walk down. -/
def dropTargetIndex (s : List ℚ) (sourceIndex : ℕ) : ℕ :=
  let up := walkUp s sourceIndex
  if up = sourceIndex then walkDown s sourceIndex else up

/-- `bottomSeqFrom b heights` embeds the bottom-line accumulation loop
of `activate`: each row's cumulative bottom offset, starting from `b`. -/
def bottomSeqFrom (b : ℚ) : List ℚ → List ℚ
  | [] => []
  | h :: hs => (b + h) :: bottomSeqFrom (b + h) hs

/-- The cumulative bottom-edge offsets computed at activation. -/
def bottomSeqOf (heights : List ℚ) : List ℚ := bottomSeqFrom 0 heights

/-- The activation snapshot built by `activate` from the rows' measured
heights and the source row's index:
`sourceMidPoint = bottomSeq[sourceIndex] + sourceHeight / 2`. -/
def activationSnapshot (heights : List ℚ) (sourceIndex : ℕ) : DragSnapshot :=
  let bs := bottomSeqOf heights
  let h := heights.getD sourceIndex 0
  { sourceIndex := sourceIndex
    sourceHeight := h
    sourceMidPoint := bs.getD sourceIndex 0 + h / 2
    bottomSeq := bs }

/-- The snapshot of the five-row, uniform-height-40 example with source
row 2. -/
def exampleSnapshot : DragSnapshot := activationSnapshot [40, 40, 40, 40, 40] 2

/-- Closed-form description of drop resolution, following the spec's
wording: from `sourceIndex`, the upward walk strips the maximal run of
strictly positive entries immediately above the source; only if that
run is empty, the downward walk skips the maximal run of strictly
negative entries immediately below the source. -/
def specDropTargetIndex (s : List ℚ) (sourceIndex : ℕ) : ℕ :=
  let upRun := ((s.take sourceIndex).reverse.takeWhile (fun x => decide (0 < x))).length
  if upRun = 0 then
    sourceIndex + ((s.drop (sourceIndex + 1)).takeWhile (fun x => decide (x < 0))).length
  else sourceIndex - upRun

theorem takeWhile_length_le (p : α → Bool) : ∀ l : List α, (l.takeWhile p).length ≤ l.length
  | [] => Nat.le_refl _
  | a :: as => by
    rw [List.takeWhile_cons]
    by_cases h : p a = true
    · simpa [h] using takeWhile_length_le p as
    · simp [h]

/-- The upward walk equals "index minus the maximal run of strictly
positive entries immediately above", as long as the walk starts in
bounds. -/
theorem walkUp_eq (s : List ℚ) :
    ∀ t, t ≤ s.length →
      walkUp s t = t - ((s.take t).reverse.takeWhile (fun x => decide (0 < x))).length
  | 0, _ => rfl
  | t + 1, ht => by
    have htlt : t < s.length := Nat.lt_of_succ_le ht
    have hget : s[t]? = some s[t] := List.getElem?_eq_getElem htlt
    have htake : (s.take (t + 1)).reverse = s[t] :: (s.take t).reverse := by
      rw [List.take_succ, hget]
      simp
    rw [walkUp, htake, List.takeWhile_cons]
    have hgd : s.getD t 0 = s[t] := by
      rw [List.getD_eq_getElem?_getD, hget]
      rfl
    by_cases hpos : 0 < s.getD t 0
    · have hp : (fun x => decide (0 < x)) s[t] = true := by
        simp only [← hgd, decide_eq_true_eq]
        exact hpos
      have hle : ((s.take t).reverse.takeWhile (fun x => decide (0 < x))).length ≤ t := by
        have h1 := takeWhile_length_le (fun x => decide (0 < x)) (s.take t).reverse
        simpa [List.length_take, Nat.min_le_left, Nat.le_of_lt htlt,
          Nat.min_eq_left (Nat.le_of_lt htlt)] using h1
      rw [if_pos hpos, if_pos hp, walkUp_eq s t (Nat.le_of_lt htlt)]
      simp only [List.length_cons]
      omega
    · have hp : ¬((fun x => decide (0 < x)) s[t] = true) := by
        simp only [← hgd, decide_eq_true_eq]
        exact hpos
      rw [if_neg hpos, if_neg hp]
      simp

/-- The downward walk equals "index plus the maximal run of strictly
negative entries immediately below". -/
theorem walkDown_eq (s : List ℚ) (t : ℕ) :
    walkDown s t = t + ((s.drop (t + 1)).takeWhile (fun x => decide (x < 0))).length := by
  rw [walkDown]
  by_cases h1 : t < s.length - 1
  · have ht1 : t + 1 < s.length := by omega
    have hdrop : s.drop (t + 1) = s[t + 1] :: s.drop (t + 1 + 1) := List.drop_eq_getElem_cons ht1
    have hgd : s.getD (t + 1) 0 = s[t + 1] := by
      rw [List.getD_eq_getElem?_getD, List.getElem?_eq_getElem ht1]
      rfl
    rw [dif_pos h1, hdrop, List.takeWhile_cons]
    by_cases h2 : s.getD (t + 1) 0 < 0
    · have hp : (fun x => decide (x < 0)) s[t + 1] = true := by
        simp only [← hgd, decide_eq_true_eq]
        exact h2
      rw [if_pos h2, if_pos hp, walkDown_eq s (t + 1)]
      simp only [List.length_cons]
      omega
    · have hp : ¬((fun x => decide (x < 0)) s[t + 1] = true) := by
        simp only [← hgd, decide_eq_true_eq]
        exact h2
      rw [if_neg h2, if_neg hp]
      simp
  · have hlen : s.length ≤ t + 1 := by omega
    rw [dif_neg h1, List.drop_of_length_le hlen]
    simp
termination_by s.length - t
decreasing_by exact Nat.sub_lt_sub_left (Nat.lt_of_lt_of_le h1 (Nat.sub_le _ _)) (Nat.lt_succ_self t)

theorem walkUp_le (s : List ℚ) : ∀ t, walkUp s t ≤ t
  | 0 => Nat.le_refl _
  | t + 1 => by
    rw [walkUp]
    by_cases h : 0 < s.getD t 0
    · rw [if_pos h]
      exact Nat.le_succ_of_le (walkUp_le s t)
    · rw [if_neg h]

theorem walkDown_lt_length (s : List ℚ) (t : ℕ) (ht : t < s.length) :
    walkDown s t < s.length := by
  rw [walkDown]
  by_cases h1 : t < s.length - 1
  · by_cases h2 : s.getD (t + 1) 0 < 0
    · rw [dif_pos h1, if_pos h2]
      exact walkDown_lt_length s (t + 1) (by omega)
    · rw [dif_pos h1, if_neg h2]
      exact ht
  · rw [dif_neg h1]
    exact ht
termination_by s.length - t
decreasing_by exact Nat.sub_lt_sub_left (Nat.lt_of_lt_of_le h1 (Nat.sub_le _ _)) (Nat.lt_succ_self t)

/-- Indices of `movememtSeq` read by the upward walk of `drop`
(the loop at position `t` reads `movememtSeq[t - 1]` whenever `t > 0`). -/
def walkUpReads (s : List ℚ) : ℕ → List ℕ
  | 0 => []
  | t + 1 => t :: (if 0 < s.getD t 0 then walkUpReads s t else [])

/-- Indices of `movememtSeq` read by the downward walk of `drop`
(the loop at position `t` reads `movememtSeq[t + 1]` whenever
`t < length - 1`). -/
def walkDownReads (s : List ℚ) (t : ℕ) : List ℕ :=
  if h : t < s.length - 1 then
    (t + 1) :: (if s.getD (t + 1) 0 < 0 then walkDownReads s (t + 1) else [])
  else []
termination_by s.length - t
decreasing_by exact Nat.sub_lt_sub_left (Nat.lt_of_lt_of_le h (Nat.sub_le _ _)) (Nat.lt_succ_self t)

/-- All indices of `movememtSeq` read while resolving a drop from
`sourceIndex`. -/
def dropReads (s : List ℚ) (sourceIndex : ℕ) : List ℕ :=
  walkUpReads s sourceIndex ++
    (if walkUp s sourceIndex = sourceIndex then walkDownReads s sourceIndex else [])

theorem walkUpReads_lt (s : List ℚ) : ∀ t, ∀ j ∈ walkUpReads s t, j < t
  | 0, j, hj => absurd hj (by simp [walkUpReads])
  | t + 1, j, hj => by
    rw [walkUpReads] at hj
    rcases List.mem_cons.mp hj with h | h
    · omega
    · by_cases hpos : 0 < s.getD t 0
      · rw [if_pos hpos] at h
        exact Nat.lt_succ_of_lt (walkUpReads_lt s t j h)
      · rw [if_neg hpos] at h
        exact absurd h (by simp)

theorem walkDownReads_lt_length (s : List ℚ) (t : ℕ) :
    ∀ j ∈ walkDownReads s t, j < s.length := by
  intro j hj
  rw [walkDownReads] at hj
  by_cases h1 : t < s.length - 1
  · rw [dif_pos h1] at hj
    rcases List.mem_cons.mp hj with h | h
    · omega
    · by_cases h2 : s.getD (t + 1) 0 < 0
      · rw [if_pos h2] at h
        exact walkDownReads_lt_length s (t + 1) j h
      · rw [if_neg h2] at h
        exact absurd h (by simp)
  · rw [dif_neg h1] at hj
    exact absurd hj (by simp)
termination_by s.length - t
decreasing_by exact Nat.sub_lt_sub_left (Nat.lt_of_lt_of_le h1 (Nat.sub_le _ _)) (Nat.lt_succ_self t)

theorem exampleSnapshot_eq :
    exampleSnapshot = ⟨2, 40, 140, [40, 80, 120, 160, 200]⟩ := by
  norm_num [exampleSnapshot, activationSnapshot, bottomSeqOf, bottomSeqFrom, List.getD]

end TableDnd

namespace TableDnd

/-- **C1.** For every activation snapshot and drag offset `dy`, the
displacement computed by `move` is `dy` at the source index, and at any
other index `i` it is `dy > 0 ? -sourceHeight : sourceHeight` exactly
when `dy * (i - sourceIndex) > 0` and
`dy * (sourceMidPoint + dy - bottomSeq[i] - (dy < 0 ? sourceHeight : 0)) > 0`
both hold, and `0` otherwise. -/
theorem move_displacement_formula (ctx : DragSnapshot) (dy : ℚ) (i : ℕ)
    (hi : i < ctx.bottomSeq.length) :
    (newMovementSeq ctx dy).getD i 0 =
      if i = ctx.sourceIndex then dy
      else if 0 < dy * ((i : ℚ) - (ctx.sourceIndex : ℚ)) ∧
              0 < dy * (ctx.sourceMidPoint + dy - ctx.bottomSeq.getD i 0 -
                (if dy < 0 then ctx.sourceHeight else 0)) then
        if 0 < dy then -ctx.sourceHeight else ctx.sourceHeight
      else 0 := by
  rw [newMovementSeq_getD ctx dy i hi]
  simp only [rowDisplacement, gt_iff_lt]

theorem move_displacement_formula_witness :
    (3 < exampleSnapshot.bottomSeq.length) ∧
      (newMovementSeq exampleSnapshot 45).getD 3 0 =
        if 3 = exampleSnapshot.sourceIndex then (45 : ℚ)
        else if 0 < (45 : ℚ) * ((3 : ℚ) - (exampleSnapshot.sourceIndex : ℚ)) ∧
                0 < (45 : ℚ) * (exampleSnapshot.sourceMidPoint + 45 -
                  exampleSnapshot.bottomSeq.getD 3 0 -
                  (if (45 : ℚ) < 0 then exampleSnapshot.sourceHeight else 0)) then
          if 0 < (45 : ℚ) then -exampleSnapshot.sourceHeight else exampleSnapshot.sourceHeight
        else 0 :=
  ⟨by rw [exampleSnapshot_eq]; norm_num,
   move_displacement_formula exampleSnapshot 45 3
     (by rw [exampleSnapshot_eq]; norm_num)⟩

/-- **C2.** Drop resolution is the deterministic function
`dropTargetIndex` of the final `movememtSeq` and `sourceIndex` alone,
and it equals the closed-form description of the two walks: starting
from `sourceIndex`, subtract the maximal run of strictly positive
entries immediately above, and only if that run is empty, add the
maximal run of strictly negative entries immediately below. -/
theorem dropTargetIndex_eq_spec (s : List ℚ) (i : ℕ) (hi : i < s.length) :
    dropTargetIndex s i = specDropTargetIndex s i := by
  have hrle : ((s.take i).reverse.takeWhile (fun x => decide (0 < x))).length ≤ i := by
    have h1 := takeWhile_length_le (fun x => decide (0 < x)) (s.take i).reverse
    simpa [List.length_reverse, List.length_take, Nat.min_eq_left (Nat.le_of_lt hi)] using h1
  simp only [dropTargetIndex, specDropTargetIndex]
  rw [walkUp_eq s i (Nat.le_of_lt hi), walkDown_eq]
  by_cases h : ((s.take i).reverse.takeWhile (fun x => decide (0 < x))).length = 0
  · rw [if_pos (by omega), if_pos h]
  · rw [if_neg (by omega), if_neg h]

theorem dropTargetIndex_eq_spec_witness :
    (2 < ([0, 0, 45, -40, 0] : List ℚ).length) ∧
      dropTargetIndex [0, 0, 45, -40, 0] 2 = specDropTargetIndex [0, 0, 45, -40, 0] 2 :=
  ⟨by norm_num, dropTargetIndex_eq_spec [0, 0, 45, -40, 0] 2 (by norm_num)⟩

/-- **C3.** In the five-row, height-40 example with source row 2
(snapshot: `sourceHeight = 40`, `sourceMidPoint = 140`,
`bottomSeq = [40, 80, 120, 160, 200]`), a move with `dy = 45` yields
displacements `[0, 0, 45, -40, 0]` (row 3 shifts up by 40, rows 0, 1, 4
stay, row 2 tracks the pointer), and drop resolution yields
`targetIndex = 3`. -/
theorem example_move_45 :
    exampleSnapshot = ⟨2, 40, 140, [40, 80, 120, 160, 200]⟩ ∧
    newMovementSeq exampleSnapshot 45 = [0, 0, 45, -40, 0] ∧
    dropTargetIndex (newMovementSeq exampleSnapshot 45) 2 = 3 := by
  have hseq : newMovementSeq exampleSnapshot 45 = [0, 0, 45, -40, 0] := by
    rw [exampleSnapshot_eq]
    simp only [newMovementSeq, mapWithIndex]
    norm_num [rowDisplacement]
  refine ⟨exampleSnapshot_eq, hseq, ?_⟩
  rw [hseq]
  norm_num [dropTargetIndex, walkUp]
  rw [walkDown]
  norm_num [List.getD]
  rw [walkDown]
  norm_num [List.getD]

/-- **C6.** In the same example, a move with `dy = 10` (below the
per-row threshold) displaces no non-source row, and drop resolution
yields `targetIndex = 2`, a no-op move. -/
theorem example_move_10 :
    newMovementSeq exampleSnapshot 10 = [0, 0, 10, 0, 0] ∧
    dropTargetIndex (newMovementSeq exampleSnapshot 10) 2 = 2 := by
  have hseq : newMovementSeq exampleSnapshot 10 = [0, 0, 10, 0, 0] := by
    rw [exampleSnapshot_eq]
    simp only [newMovementSeq, mapWithIndex]
    norm_num [rowDisplacement]
  refine ⟨hseq, ?_⟩
  rw [hseq]
  norm_num [dropTargetIndex, walkUp]
  rw [walkDown]
  norm_num [List.getD]

/-- **C10.** For a valid `sourceIndex`, the resolved target index is a
valid index into the (parallel) row and movement sequences, and every
`movememtSeq` index read by the two resolution walks is in bounds. -/
theorem drop_resolution_safe (s : List ℚ) (i : ℕ) (hi : i < s.length) :
    dropTargetIndex s i < s.length ∧ ∀ j ∈ dropReads s i, j < s.length := by
  constructor
  · simp only [dropTargetIndex]
    by_cases h : walkUp s i = i
    · rw [if_pos h]
      exact walkDown_lt_length s i hi
    · rw [if_neg h]
      exact Nat.lt_of_le_of_lt (walkUp_le s i) hi
  · intro j hj
    simp only [dropReads] at hj
    rcases List.mem_append.mp hj with h | h
    · exact Nat.lt_trans (walkUpReads_lt s i j h) hi
    · by_cases hup : walkUp s i = i
      · rw [if_pos hup] at h
        exact walkDownReads_lt_length s i j h
      · rw [if_neg hup] at h
        exact absurd h (by simp)

/-- A non-source row's displacement is nonzero exactly when the source
height is nonzero and both guard conditions of `move` hold. -/
theorem rowDisplacement_ne_zero_iff (ctx : DragSnapshot) (dy : ℚ) (i : ℕ) (b : ℚ)
    (h : i ≠ ctx.sourceIndex) :
    rowDisplacement ctx dy i b ≠ 0 ↔
      ctx.sourceHeight ≠ 0 ∧ 0 < dy * ((i : ℚ) - (ctx.sourceIndex : ℚ)) ∧
        0 < dy * (ctx.sourceMidPoint + dy - b -
          (if dy < 0 then ctx.sourceHeight else 0)) := by
  unfold rowDisplacement
  rw [if_neg h]
  by_cases hc : dy * ((i : ℚ) - (ctx.sourceIndex : ℚ)) > 0 ∧
      dy * (ctx.sourceMidPoint + dy - b - (if dy < 0 then ctx.sourceHeight else 0)) > 0
  · rw [if_pos hc]
    by_cases hdy : dy > 0
    · simp [hdy, hc.1, hc.2, neg_ne_zero]
    · simp [hdy, hc.1, hc.2]
  · rw [if_neg hc]
    constructor
    · intro habs
      exact absurd rfl habs
    · rintro ⟨-, hc1, hc2⟩
      exact absurd ⟨hc1, hc2⟩ hc

theorem sorted_getD_mono (l : List ℚ) (hs : l.Sorted (· ≤ ·)) (a b : ℕ)
    (hab : a ≤ b) (hb : b < l.length) : l.getD a 0 ≤ l.getD b 0 := by
  rcases Nat.eq_or_lt_of_le hab with rfl | hlt
  · exact le_refl _
  · have ha : a < l.length := Nat.lt_trans hlt hb
    have hrel := hs.rel_get_of_lt (a := ⟨a, ha⟩) (b := ⟨b, hb⟩) hlt
    rw [List.getD_eq_getElem l 0 ha, List.getD_eq_getElem l 0 hb]
    simpa [List.get_eq_getElem] using hrel

/-- **C5 (amended).** For every snapshot whose `bottomSeq` is
non-decreasing and whose source index is in bounds:
(1) contiguity — a non-source row is never displaced while a row
strictly between it and the source is undisplaced; and
(2) monotonicity in the drag offset — a non-source row displaced at
offset `dy` stays displaced at every offset of the same sign and larger
magnitude. Rows with equal bottom boundaries (zero heights) transition
simultaneously rather than one at a time. -/
theorem move_contiguous_monotone (ctx : DragSnapshot)
    (hs : ctx.bottomSeq.Sorted (· ≤ ·))
    (hsrc : ctx.sourceIndex < ctx.bottomSeq.length) :
    (∀ dy : ℚ, ∀ i j : ℕ, i < ctx.bottomSeq.length →
      ((ctx.sourceIndex < j ∧ j < i) ∨ (i < j ∧ j < ctx.sourceIndex)) →
      (newMovementSeq ctx dy).getD i 0 ≠ 0 →
      (newMovementSeq ctx dy).getD j 0 ≠ 0) ∧
    (∀ dy dy' : ℚ, ∀ i : ℕ, i < ctx.bottomSeq.length → i ≠ ctx.sourceIndex →
      ((0 < dy ∧ dy ≤ dy') ∨ (dy' ≤ dy ∧ dy < 0)) →
      (newMovementSeq ctx dy).getD i 0 ≠ 0 →
      (newMovementSeq ctx dy').getD i 0 ≠ 0) := by
  constructor
  · intro dy i j hi hbetween hdi
    have hj : j < ctx.bottomSeq.length := by
      rcases hbetween with ⟨_, hji⟩ | ⟨_, hjs⟩
      · exact Nat.lt_trans hji hi
      · exact Nat.lt_trans hjs hsrc
    have hine : i ≠ ctx.sourceIndex := by omega
    have hjne : j ≠ ctx.sourceIndex := by omega
    rw [newMovementSeq_getD ctx dy i hi, rowDisplacement_ne_zero_iff ctx dy i _ hine] at hdi
    rw [newMovementSeq_getD ctx dy j hj, rowDisplacement_ne_zero_iff ctx dy j _ hjne]
    obtain ⟨hh, h1, h2⟩ := hdi
    rcases hbetween with ⟨hsj, hji⟩ | ⟨hij, hjs⟩
    · -- downward side: sourceIndex < j < i, so dy > 0
      have hisrc : (ctx.sourceIndex : ℚ) < (i : ℚ) := by
        exact_mod_cast Nat.lt_trans hsj hji
      have hjsrc : (ctx.sourceIndex : ℚ) < (j : ℚ) := by exact_mod_cast hsj
      have hdy : 0 < dy := by
        rcases mul_pos_iff.mp h1 with ⟨hd, _⟩ | ⟨_, hneg⟩
        · exact hd
        · nlinarith
      have hite : (if dy < 0 then ctx.sourceHeight else 0) = 0 :=
        if_neg (by linarith)
      rw [hite] at h2 ⊢
      have hbi : 0 < ctx.sourceMidPoint + dy - ctx.bottomSeq.getD i 0 - 0 := by
        rcases mul_pos_iff.mp h2 with ⟨_, hb⟩ | ⟨hd, _⟩
        · exact hb
        · linarith
      have hmono : ctx.bottomSeq.getD j 0 ≤ ctx.bottomSeq.getD i 0 :=
        sorted_getD_mono _ hs j i (Nat.le_of_lt hji) hi
      exact ⟨hh, mul_pos hdy (by linarith), mul_pos hdy (by linarith)⟩
    · -- upward side: i < j < sourceIndex, so dy < 0
      have hisrc : (i : ℚ) < (ctx.sourceIndex : ℚ) := by
        exact_mod_cast Nat.lt_trans hij hjs
      have hjsrc : (j : ℚ) < (ctx.sourceIndex : ℚ) := by exact_mod_cast hjs
      have hdy : dy < 0 := by
        rcases mul_pos_iff.mp h1 with ⟨hd, hc⟩ | ⟨hd, _⟩
        · nlinarith
        · exact hd
      have hite : (if dy < 0 then ctx.sourceHeight else 0) = ctx.sourceHeight :=
        if_pos hdy
      rw [hite] at h2 ⊢
      have hbi : ctx.sourceMidPoint + dy - ctx.bottomSeq.getD i 0 - ctx.sourceHeight < 0 := by
        rcases mul_pos_iff.mp h2 with ⟨hd, _⟩ | ⟨_, hb⟩
        · linarith
        · exact hb
      have hmono : ctx.bottomSeq.getD i 0 ≤ ctx.bottomSeq.getD j 0 :=
        sorted_getD_mono _ hs i j (Nat.le_of_lt hij) hj
      exact ⟨hh, mul_pos_of_neg_of_neg hdy (by linarith),
        mul_pos_of_neg_of_neg hdy (by linarith)⟩
  · intro dy dy' i hi hine hsign hdi
    rw [newMovementSeq_getD ctx dy i hi, rowDisplacement_ne_zero_iff ctx dy i _ hine] at hdi
    rw [newMovementSeq_getD ctx dy' i hi, rowDisplacement_ne_zero_iff ctx dy' i _ hine]
    obtain ⟨hh, h1, h2⟩ := hdi
    rcases hsign with ⟨hdy, hle⟩ | ⟨hle, hdy⟩
    · -- positive drags: 0 < dy ≤ dy'
      have hdy' : 0 < dy' := lt_of_lt_of_le hdy hle
      have hisrc : (ctx.sourceIndex : ℚ) < (i : ℚ) := by
        rcases mul_pos_iff.mp h1 with ⟨_, hc⟩ | ⟨hd, _⟩
        · linarith
        · linarith
      rw [if_neg (by linarith : ¬dy < 0)] at h2
      rw [if_neg (by linarith : ¬dy' < 0)]
      have hbi : 0 < ctx.sourceMidPoint + dy - ctx.bottomSeq.getD i 0 - 0 := by
        rcases mul_pos_iff.mp h2 with ⟨_, hb⟩ | ⟨hd, _⟩
        · exact hb
        · linarith
      exact ⟨hh, mul_pos hdy' (by linarith), mul_pos hdy' (by linarith)⟩
    · -- negative drags: dy' ≤ dy < 0
      have hdy' : dy' < 0 := lt_of_le_of_lt hle hdy
      have hisrc : (i : ℚ) < (ctx.sourceIndex : ℚ) := by
        rcases mul_pos_iff.mp h1 with ⟨hd, _⟩ | ⟨_, hc⟩
        · linarith
        · linarith
      rw [if_pos hdy] at h2
      rw [if_pos hdy']
      have hbi : ctx.sourceMidPoint + dy - ctx.bottomSeq.getD i 0 - ctx.sourceHeight < 0 := by
        rcases mul_pos_iff.mp h2 with ⟨hd, _⟩ | ⟨_, hb⟩
        · linarith
        · exact hb
      exact ⟨hh, mul_pos_of_neg_of_neg hdy' (by linarith),
        mul_pos_of_neg_of_neg hdy' (by linarith)⟩

theorem move_contiguous_monotone_witness :
    (exampleSnapshot.bottomSeq.Sorted (· ≤ ·) ∧
      exampleSnapshot.sourceIndex < exampleSnapshot.bottomSeq.length) ∧
    ((∀ dy : ℚ, ∀ i j : ℕ, i < exampleSnapshot.bottomSeq.length →
      ((exampleSnapshot.sourceIndex < j ∧ j < i) ∨ (i < j ∧ j < exampleSnapshot.sourceIndex)) →
      (newMovementSeq exampleSnapshot dy).getD i 0 ≠ 0 →
      (newMovementSeq exampleSnapshot dy).getD j 0 ≠ 0) ∧
    (∀ dy dy' : ℚ, ∀ i : ℕ, i < exampleSnapshot.bottomSeq.length →
      i ≠ exampleSnapshot.sourceIndex →
      ((0 < dy ∧ dy ≤ dy') ∨ (dy' ≤ dy ∧ dy < 0)) →
      (newMovementSeq exampleSnapshot dy).getD i 0 ≠ 0 →
      (newMovementSeq exampleSnapshot dy').getD i 0 ≠ 0)) :=
  ⟨⟨by rw [exampleSnapshot_eq]; norm_num [List.sorted_cons],
    by rw [exampleSnapshot_eq]; norm_num⟩,
   move_contiguous_monotone exampleSnapshot
     (by rw [exampleSnapshot_eq]; norm_num [List.sorted_cons])
     (by rw [exampleSnapshot_eq]; norm_num)⟩

/-- Formalisation of C5's "one at a time, each at its own boundary" on
the downward side: for any two distinct rows below the source, there is
a drag offset at which the nearer row is already displaced while the
farther row is not yet. -/
def separatesBoundaries (ctx : DragSnapshot) : Prop :=
  ∀ i j : ℕ, ctx.sourceIndex < i → i < j → j < ctx.bottomSeq.length →
    ∃ dy : ℚ, (newMovementSeq ctx dy).getD i 0 ≠ 0 ∧ (newMovementSeq ctx dy).getD j 0 = 0

/-- A snapshot with two zero-height rows below a height-40 source row:
`bottomSeq = [40, 40, 40]` is non-decreasing but has ties. -/
def tieSnapshot : DragSnapshot := activationSnapshot [40, 0, 0] 0

theorem tieSnapshot_eq : tieSnapshot = ⟨0, 40, 60, [40, 40, 40]⟩ := by
  norm_num [tieSnapshot, activationSnapshot, bottomSeqOf, bottomSeqFrom, List.getD]

/-- **C5 counterexample.** `tieSnapshot` satisfies the claim's
hypothesis (non-decreasing `bottomSeq`), but its rows 1 and 2 never
transition one at a time: at every drag offset they are displaced
together, so the claim's "one at a time, each at its own boundary"
fails. -/
theorem tie_rows_not_separated :
    tieSnapshot.bottomSeq.Sorted (· ≤ ·) ∧ ¬separatesBoundaries tieSnapshot := by
  constructor
  · rw [tieSnapshot_eq]
    norm_num [List.sorted_cons]
  · intro hsep
    obtain ⟨dy, h1, h2⟩ := hsep 1 2
      (by rw [tieSnapshot_eq]; norm_num)
      (by norm_num)
      (by rw [tieSnapshot_eq]; norm_num)
    rw [tieSnapshot_eq] at h1 h2
    rw [newMovementSeq_getD _ _ 1 (by norm_num)] at h1
    rw [newMovementSeq_getD _ _ 2 (by norm_num)] at h2
    rw [rowDisplacement_ne_zero_iff _ _ _ _ (by norm_num)] at h1
    obtain ⟨-, hc1, -⟩ := h1
    have hdy : 0 < dy := by
      rcases mul_pos_iff.mp hc1 with ⟨hd, _⟩ | ⟨_, hc⟩
      · exact hd
      · norm_num at hc
    have hne : rowDisplacement ⟨0, 40, 60, [40, 40, 40]⟩ dy 2
        (([40, 40, 40] : List ℚ).getD 2 0) ≠ 0 := by
      rw [rowDisplacement_ne_zero_iff _ _ _ _ (by norm_num)]
      refine ⟨by norm_num, ?_, ?_⟩
      · show 0 < dy * ((2 : ℚ) - ((0 : ℕ) : ℚ))
        push_cast
        nlinarith
      · show 0 < dy * ((60 : ℚ) + dy - ([40, 40, 40] : List ℚ).getD 2 0 -
          (if dy < 0 then (40 : ℚ) else 0))
        rw [if_neg (by linarith : ¬dy < 0)]
        have hgd : ([40, 40, 40] : List ℚ).getD 2 0 = 40 := by norm_num [List.getD]
        rw [hgd]
        nlinarith
    exact hne h2

theorem drop_resolution_safe_witness :
    (2 < ([0, 0, 45, -40, 0] : List ℚ).length) ∧
      (dropTargetIndex [0, 0, 45, -40, 0] 2 < ([0, 0, 45, -40, 0] : List ℚ).length ∧
        ∀ j ∈ dropReads [0, 0, 45, -40, 0] 2, j < ([0, 0, 45, -40, 0] : List ℚ).length) :=
  ⟨by norm_num, drop_resolution_safe [0, 0, 45, -40, 0] 2 (by norm_num)⟩

/-- A JavaScript number as it can appear in the default activation
gate: an exact rational, a signed infinity, or NaN. Rounding of finite
results is not modelled. -/
inductive JSNum where
  | num (q : ℚ)
  | posInf
  | negInf
  | nan
  deriving Repr, DecidableEq

/-- JavaScript `Math.abs`. -/
def jsAbs : JSNum → JSNum
  | .num q => .num |q|
  | .posInf => .posInf
  | .negInf => .posInf
  | .nan => .nan

/-- JavaScript division on finite operands, with the IEEE rules
`x / 0 = ±∞` for `x ≠ 0` and `0 / 0 = NaN`. The gate only ever divides
two finite numbers, so non-finite operands are mapped to NaN. -/
def jsDiv : JSNum → JSNum → JSNum
  | .num a, .num b =>
    if b ≠ 0 then .num (a / b)
    else if 0 < a then .posInf
    else if a < 0 then .negInf
    else .nan
  | _, _ => .nan

/-- JavaScript `>` on numbers: any comparison with NaN is false, and
`+∞` is greater than every finite number. -/
def jsGt : JSNum → JSNum → Bool
  | .num a, .num b => decide (b < a)
  | .num _, .posInf => false
  | .num _, .negInf => true
  | .posInf, .num _ => true
  | .posInf, .posInf => false
  | .posInf, .negInf => true
  | .negInf, .num _ => false
  | .negInf, .posInf => false
  | .negInf, .negInf => false
  | .nan, _ => false
  | _, .nan => false

/-- The default `onBeforeDragActivate` gate:
`Math.abs(dy) > 10 && Math.abs(dy / dx) > 2`. -/
def defaultOnBeforeDragActivate (dx dy : JSNum) : Bool :=
  jsGt (jsAbs dy) (.num 10) && jsGt (jsAbs (jsDiv dy dx)) (.num 2)

/-- **C9.** The default activation gate returns true exactly when
`|dy| > 10` and `|dy / dx| > 2` under JavaScript arithmetic: for
`dx ≠ 0` this is the exact rational comparison; for `dx = 0` and
`dy ≠ 0` the division yields a signed infinity, whose absolute value
passes the `> 2` test, so the gate reduces to `|dy| > 10` — a perfectly
vertical drag with `|dy| > 10` always activates. -/
theorem default_gate_spec (dx dy : ℚ) :
    (dx ≠ 0 → (defaultOnBeforeDragActivate (.num dx) (.num dy) = true ↔
      10 < |dy| ∧ 2 < |dy / dx|)) ∧
    (dx = 0 → dy ≠ 0 →
      jsDiv (.num dy) (.num dx) = (if 0 < dy then JSNum.posInf else JSNum.negInf) ∧
      jsGt (jsAbs (jsDiv (.num dy) (.num dx))) (.num 2) = true) ∧
    (dx = 0 → (defaultOnBeforeDragActivate (.num dx) (.num dy) = true ↔ 10 < |dy|)) := by
  refine ⟨?_, ?_, ?_⟩
  · intro hdx
    simp [defaultOnBeforeDragActivate, jsDiv, jsAbs, jsGt, hdx]
  · intro hdx hdy
    subst hdx
    rcases lt_trichotomy dy 0 with h | h | h
    · rw [jsDiv, if_neg (by norm_num), if_neg (by linarith), if_pos h,
        if_neg (by linarith)]
      exact ⟨rfl, rfl⟩
    · exact absurd h hdy
    · rw [jsDiv, if_neg (by norm_num), if_pos h, if_pos h]
      exact ⟨rfl, rfl⟩
  · intro hdx
    subst hdx
    by_cases hdy : dy = 0
    · subst hdy
      simp [defaultOnBeforeDragActivate, jsAbs, jsGt]
    · rcases lt_trichotomy dy 0 with h | h | h
      · rw [defaultOnBeforeDragActivate, jsDiv, if_neg (by norm_num),
          if_neg (by linarith), if_pos h]
        simp [jsAbs, jsGt]
      · exact absurd h hdy
      · rw [defaultOnBeforeDragActivate, jsDiv, if_neg (by norm_num), if_pos h]
        simp [jsAbs, jsGt]

theorem default_gate_spec_witness :
    defaultOnBeforeDragActivate (.num 0) (.num 11) = true :=
  ((default_gate_spec 0 11).2.2 rfl).mpr (by norm_num)

end TableDnd

namespace TableDnd

/-- A pointer event as the controller observes it: the client
coordinates, and the row (by its index in the table) found by walking
from the event target up to the nearest `tr` ancestor inside the
container, or `none` when that walk finds no row. -/
structure PointerEvent where
  hit : Option ℕ
  clientX : ℚ
  clientY : ℚ
  deriving Repr, DecidableEq

/-- The lifecycle callbacks emitted by the controller, recorded with
the context data they carry. -/
inductive Emitted where
  | dragStart (source : ℕ)
  | dragActivate (sourceIndex : ℕ)
  | dragMove (movememtSeq : List ℚ)
  | drop (sourceIndex targetIndex : ℕ)
  deriving Repr, DecidableEq

/-- The drag context (`TableDndContext`), with row elements identified
by their index in the table. Fields that the source assigns only at
activation hold their pre-activation defaults until then. -/
structure Ctx where
  startPosition : ℚ × ℚ
  activated : Bool
  source : ℕ
  sourceIndex : ℕ := 0
  sourceHeight : ℚ := 0
  sourceMidPoint : ℚ := 0
  bottomSeq : List ℚ := []
  movememtSeq : List ℚ := []
  deriving Repr, DecidableEq

/-- The activation-time snapshot held in a context. -/
def Ctx.snapshot (c : Ctx) : DragSnapshot :=
  { sourceIndex := c.sourceIndex
    sourceHeight := c.sourceHeight
    sourceMidPoint := c.sourceMidPoint
    bottomSeq := c.bottomSeq }

/-- The controller configuration: the two boolean gates. The pure
notification callbacks (`onDragStart`, `onDragActivate`, `onDragMove`,
`onDrop`) are modelled by the emission log of the state. -/
structure Config where
  onBeforeDragStart : PointerEvent → Bool
  onBeforeDragActivate : PointerEvent → ℚ × ℚ → Ctx → Bool

/-- The controller state: whether each of the three listeners
(mousedown and mousemove on the table, mouseup on the window) is
currently registered, the drag context, and the log of emitted
callbacks, oldest first. -/
structure SysState where
  mousedownOn : Bool
  mousemoveOn : Bool
  mouseupOn : Bool
  context : Option Ctx
  log : List Emitted
  deriving Repr, DecidableEq

/-- `start`: create a fresh, unactivated context and emit
`onDragStart`. -/
def start (s : SysState) (source : ℕ) (startPosition : ℚ × ℚ) : SysState :=
  { s with
    context := some { startPosition := startPosition, activated := false, source := source }
    log := s.log ++ [.dragStart source] }

/-- `activate`: snapshot the rows' geometry (heights in document
order), mark the context activated. With rows modelled by their index,
`rowSeq.indexOf(source)` is the source itself. -/
def activate (heights : List ℚ) (c : Ctx) : Ctx :=
  let sourceHeight := heights.getD c.source 0
  let bottomSeq := bottomSeqOf heights
  let sourceIndex := c.source
  { c with
    activated := true
    sourceIndex := sourceIndex
    sourceHeight := sourceHeight
    sourceMidPoint := bottomSeq.getD sourceIndex 0 + sourceHeight / 2
    bottomSeq := bottomSeq }

/-- The mousedown listener: consult the pre-start gate, resolve the
row under the pointer, and start a drag. -/
def onMousedown (o : Config) (s : SysState) (e : PointerEvent) : SysState :=
  if s.mousedownOn then
    if o.onBeforeDragStart e = false then s
    else
      match e.hit with
      | none => s
      | some r => start s r (e.clientX, e.clientY)
  else s

/-- The tail of the mousemove listener after the optional activation:
if the (possibly just activated) context is activated, run `move` —
recompute the movement sequence and emit `onDragMove` — otherwise just
store the context back. `log1` is what the optional activation emitted. -/
def moveUpdate (s : SysState) (c : Ctx) (dy : ℚ) (log1 : List Emitted) : SysState :=
  if c.activated then
    { s with
      context := some { c with movememtSeq := newMovementSeq c.snapshot dy }
      log := s.log ++ log1 ++ [.dragMove (newMovementSeq c.snapshot dy)] }
  else { s with context := some c, log := s.log ++ log1 }

/-- The mousemove listener: with a context present, consult the
activation gate if not yet activated, then run `move` when activated. -/
def onMousemove (o : Config) (heights : List ℚ) (s : SysState) (e : PointerEvent) :
    SysState :=
  if s.mousemoveOn then
    match s.context with
    | none => s
    | some c =>
      let dy := e.clientY - c.startPosition.2
      if !c.activated && o.onBeforeDragActivate e (e.clientX - c.startPosition.1, dy) c then
        moveUpdate s (activate heights c) dy
          [.dragActivate (activate heights c).sourceIndex]
      else moveUpdate s c dy []
  else s

/-- The mouseup listener: with a context present, run `drop` — resolve
the target index and emit `onDrop` if the drag was activated — then
clear the context. -/
def onMouseup (s : SysState) : SysState :=
  if s.mouseupOn then
    match s.context with
    | none => s
    | some c =>
      if c.activated then
        { s with
          context := none
          log := s.log ++ [.drop c.sourceIndex (dropTargetIndex c.movememtSeq c.sourceIndex)] }
      else { s with context := none }
  else s

/-- `destroy`: remove the three listeners. (The source does not touch
`context` here.) -/
def destroy (s : SysState) : SysState :=
  { s with mousedownOn := false, mousemoveOn := false, mouseupOn := false }

/-- The state right after `setup`: all three listeners registered, no
context, nothing emitted. -/
def setupState : SysState :=
  { mousedownOn := true, mousemoveOn := true, mouseupOn := true
    context := none, log := [] }

/-- The inputs the controller reacts to: the three pointer events and
a call to the returned teardown handle. -/
inductive Action where
  | mousedown (e : PointerEvent)
  | mousemove (e : PointerEvent)
  | mouseup
  | destroy
  deriving Repr, DecidableEq

/-- One reaction of the controller. -/
def step (o : Config) (heights : List ℚ) (s : SysState) : Action → SysState
  | .mousedown e => onMousedown o s e
  | .mousemove e => onMousemove o heights s e
  | .mouseup => onMouseup s
  | .destroy => destroy s

/-- The controller run over a sequence of inputs. -/
def run (o : Config) (heights : List ℚ) : SysState → List Action → SysState
  | s, [] => s
  | s, a :: as => run o heights (step o heights s a) as

/-- A configuration whose gates always accept. -/
def permissiveConfig : Config where
  onBeforeDragStart := fun _ => true
  onBeforeDragActivate := fun _ _ _ => true

/-- An activated drag context over three height-40 rows, mid-drag. -/
def inFlightCtx : Ctx :=
  { startPosition := (0, 0), activated := true, source := 1, sourceIndex := 1
    sourceHeight := 40, sourceMidPoint := 100, bottomSeq := [40, 80, 120]
    movememtSeq := [0, 5, 0] }

/-- A state in the middle of an active drag: listeners registered,
activated context in flight. -/
def midDragState : SysState :=
  { mousedownOn := true, mousemoveOn := true, mouseupOn := true
    context := some inFlightCtx, log := [] }

/-- **C4 counterexample.** Calling `destroy` in the middle of an active
drag does not clear the in-flight drag context: the context survives
the call unchanged, contradicting the claim that no in-flight state
survives. -/
theorem destroy_does_not_clear_context :
    (step permissiveConfig [40, 40, 40] midDragState .destroy).context = some inFlightCtx ∧
    (step permissiveConfig [40, 40, 40] midDragState .destroy).context ≠ none :=
  ⟨rfl, by simp [step, destroy, midDragState]⟩

/-- **C4 (amended).** `destroy` removes all three registered listeners
and afterwards the controller is inert: no subsequent input changes the
state, so in particular a subsequent pointer-up never invokes the drop
callback (the log never grows). However `destroy` does not clear the
in-flight drag context: the context field survives the call
unchanged. -/
theorem destroy_spec (o : Config) (heights : List ℚ) (s : SysState) :
    (step o heights s .destroy).mousedownOn = false ∧
    (step o heights s .destroy).mousemoveOn = false ∧
    (step o heights s .destroy).mouseupOn = false ∧
    (step o heights s .destroy).context = s.context ∧
    (step o heights s .destroy).log = s.log ∧
    ∀ a : Action, step o heights (step o heights s .destroy) a = step o heights s .destroy := by
  obtain ⟨d, m, u, c, l⟩ := s
  refine ⟨rfl, rfl, rfl, rfl, rfl, ?_⟩
  intro a
  cases a with
  | mousedown e => rfl
  | mousemove e => rfl
  | mouseup => rfl
  | destroy => rfl

theorem step_mousedown (o : Config) (heights : List ℚ) (s : SysState) (e : PointerEvent) :
    step o heights s (.mousedown e) = onMousedown o s e := rfl

theorem step_mousemove (o : Config) (heights : List ℚ) (s : SysState) (e : PointerEvent) :
    step o heights s (.mousemove e) = onMousemove o heights s e := rfl

theorem step_mouseup (o : Config) (heights : List ℚ) (s : SysState) :
    step o heights s .mouseup = onMouseup s := rfl

theorem step_destroy (o : Config) (heights : List ℚ) (s : SysState) :
    step o heights s .destroy = destroy s := rfl

theorem onMousedown_not_started (o : Config) (s : SysState) (e : PointerEvent)
    (h : s.mousedownOn = false ∨ o.onBeforeDragStart e = false ∨ e.hit = none) :
    onMousedown o s e = s := by
  unfold onMousedown
  by_cases hd : s.mousedownOn = true
  · rw [if_pos hd]
    rcases h with h | h | h
    · rw [h] at hd
      exact absurd hd (by simp)
    · rw [if_pos h]
    · by_cases hg : o.onBeforeDragStart e = false
      · rw [if_pos hg]
      · rw [if_neg hg, h]
  · rw [if_neg hd]

theorem onMousedown_started (o : Config) (s : SysState) (e : PointerEvent) (r : ℕ)
    (hd : s.mousedownOn = true) (hg : ¬o.onBeforeDragStart e = false)
    (hh : e.hit = some r) :
    onMousedown o s e = start s r (e.clientX, e.clientY) := by
  unfold onMousedown
  rw [if_pos hd, if_neg hg, hh]

theorem onMousemove_skipped (o : Config) (heights : List ℚ) (s : SysState) (e : PointerEvent)
    (h : s.mousemoveOn = false ∨ s.context = none) :
    onMousemove o heights s e = s := by
  unfold onMousemove
  by_cases hm : s.mousemoveOn = true
  · rw [if_pos hm]
    rcases h with h | h
    · rw [h] at hm
      exact absurd hm (by simp)
    · rw [h]
  · rw [if_neg hm]

theorem onMousemove_some (o : Config) (heights : List ℚ) (s : SysState) (e : PointerEvent)
    (c : Ctx) (hm : s.mousemoveOn = true) (hctx : s.context = some c) :
    onMousemove o heights s e =
      if (!c.activated && o.onBeforeDragActivate e
          (e.clientX - c.startPosition.1, e.clientY - c.startPosition.2) c) = true then
        moveUpdate s (activate heights c) (e.clientY - c.startPosition.2)
          [.dragActivate (activate heights c).sourceIndex]
      else moveUpdate s c (e.clientY - c.startPosition.2) [] := by
  unfold onMousemove
  rw [if_pos hm, hctx]

theorem onMouseup_skipped (s : SysState) (h : s.mouseupOn = false ∨ s.context = none) :
    onMouseup s = s := by
  unfold onMouseup
  by_cases hu : s.mouseupOn = true
  · rw [if_pos hu]
    rcases h with h | h
    · rw [h] at hu
      exact absurd hu (by simp)
    · rw [h]
  · rw [if_neg hu]

theorem onMouseup_some (s : SysState) (c : Ctx) (hu : s.mouseupOn = true)
    (hctx : s.context = some c) :
    onMouseup s =
      if c.activated = true then
        { s with
          context := none
          log := s.log ++ [.drop c.sourceIndex (dropTargetIndex c.movememtSeq c.sourceIndex)] }
      else { s with context := none } := by
  unfold onMouseup
  rw [if_pos hu, hctx]

theorem no_drop_count_append (l extra : List Emitted) (src tgt : ℕ)
    (h : ∀ x ∈ extra, x ≠ Emitted.drop src tgt) :
    (l ++ extra).count (Emitted.drop src tgt) = l.count (Emitted.drop src tgt) := by
  rw [List.count_append, List.count_eq_zero.mpr (fun hmem => h _ hmem rfl), Nat.add_zero]

theorem moveUpdate_count (s : SysState) (c : Ctx) (dy : ℚ) (log1 : List Emitted)
    (src tgt : ℕ) (h1 : ∀ x ∈ log1, x ≠ Emitted.drop src tgt) :
    ((moveUpdate s c dy log1).log).count (Emitted.drop src tgt) =
      s.log.count (Emitted.drop src tgt) := by
  unfold moveUpdate
  by_cases hact : c.activated = true
  · rw [if_pos hact]
    show ((s.log ++ log1 ++ [Emitted.dragMove (newMovementSeq c.snapshot dy)]).count _) = _
    rw [List.append_assoc,
      no_drop_count_append s.log (log1 ++ [Emitted.dragMove (newMovementSeq c.snapshot dy)])
        src tgt ?_]
    intro x hx
    rcases List.mem_append.mp hx with hx | hx
    · exact h1 x hx
    · rw [List.mem_singleton.mp hx]
      simp
  · rw [if_neg hact]
    exact no_drop_count_append s.log log1 src tgt h1

/-- **C7.** A pointer-up on a drag context that was never activated
discards the context without invoking the drop callback, and a single
input emits a drop callback only when an activated context exists. -/
theorem drop_only_when_activated (o : Config) (heights : List ℚ) (s : SysState) :
    (∀ c : Ctx, s.context = some c → c.activated = false → s.mouseupOn = true →
      (step o heights s .mouseup).context = none ∧
      (step o heights s .mouseup).log = s.log) ∧
    (∀ (a : Action) (src tgt : ℕ),
      s.log.count (Emitted.drop src tgt) <
        ((step o heights s a).log).count (Emitted.drop src tgt) →
      ∃ c : Ctx, s.context = some c ∧ c.activated = true) := by
  constructor
  · intro c hc hact hup
    rw [step_mouseup, onMouseup_some s c hup hc, hact]
    constructor
    · simp
    · simp
  · intro a src tgt hcount
    cases a with
    | mousedown e =>
      exfalso
      refine absurd hcount (Nat.not_lt.mpr (Nat.le_of_eq ?_))
      rw [step_mousedown]
      by_cases hd : s.mousedownOn = true
      · by_cases hg : o.onBeforeDragStart e = false
        · rw [onMousedown_not_started o s e (Or.inr (Or.inl hg))]
        · cases hhit : e.hit with
          | none => rw [onMousedown_not_started o s e (Or.inr (Or.inr hhit))]
          | some r =>
            rw [onMousedown_started o s e r hd hg hhit]
            unfold start
            refine no_drop_count_append s.log [Emitted.dragStart r] src tgt ?_
            intro x hx
            rw [List.mem_singleton.mp hx]
            simp
      · rw [onMousedown_not_started o s e (Or.inl (by simpa using hd))]
    | mousemove e =>
      cases hctx : s.context with
      | none =>
        exfalso
        refine absurd hcount (Nat.not_lt.mpr (Nat.le_of_eq ?_))
        rw [step_mousemove, onMousemove_skipped o heights s e (Or.inr hctx)]
      | some c =>
        by_cases hact : c.activated = true
        · exact ⟨c, rfl, hact⟩
        · exfalso
          refine absurd hcount (Nat.not_lt.mpr (Nat.le_of_eq ?_))
          rw [step_mousemove]
          by_cases hm : s.mousemoveOn = true
          · rw [onMousemove_some o heights s e c hm hctx]
            by_cases hgate : (!c.activated &&
                o.onBeforeDragActivate e
                  (e.clientX - c.startPosition.1, e.clientY - c.startPosition.2) c) = true
            · rw [if_pos hgate]
              refine moveUpdate_count s _ _ _ src tgt ?_
              intro x hx
              rw [List.mem_singleton.mp hx]
              simp
            · rw [if_neg hgate]
              exact moveUpdate_count s c _ [] src tgt (by simp)
          · rw [onMousemove_skipped o heights s e (Or.inl (by simpa using hm))]
    | mouseup =>
      cases hctx : s.context with
      | none =>
        exfalso
        refine absurd hcount (Nat.not_lt.mpr (Nat.le_of_eq ?_))
        rw [step_mouseup, onMouseup_skipped s (Or.inr hctx)]
      | some c =>
        by_cases hact : c.activated = true
        · exact ⟨c, rfl, hact⟩
        · exfalso
          refine absurd hcount (Nat.not_lt.mpr (Nat.le_of_eq ?_))
          rw [step_mouseup]
          by_cases hu : s.mouseupOn = true
          · rw [onMouseup_some s c hu hctx, if_neg hact]
          · rw [onMouseup_skipped s (Or.inl (by simpa using hu))]
    | destroy =>
      exfalso
      exact absurd hcount (Nat.not_lt.mpr (Nat.le_of_eq rfl))

/-- A never-activated armed context. -/
def armedCtx : Ctx := { startPosition := (0, 0), activated := false, source := 1 }

/-- A state armed by a pointer-down but below the activation gate. -/
def armedState : SysState :=
  { mousedownOn := true, mousemoveOn := true, mouseupOn := true
    context := some armedCtx, log := [.dragStart 1] }

theorem drop_only_when_activated_witness :
    ((step permissiveConfig [40, 40, 40] armedState .mouseup).context = none ∧
      (step permissiveConfig [40, 40, 40] armedState .mouseup).log = armedState.log) ∧
    (armedState.log.count (Emitted.drop 1 1) <
      ((step permissiveConfig [40, 40, 40] armedState .mouseup).log).count (Emitted.drop 1 1) →
      ∃ c : Ctx, armedState.context = some c ∧ c.activated = true) :=
  ⟨(drop_only_when_activated permissiveConfig [40, 40, 40] armedState).1
      armedCtx rfl rfl rfl,
    (drop_only_when_activated permissiveConfig [40, 40, 40] armedState).2 .mouseup 1 1⟩

/-- **C8.** After a pointer-down rejected by the pre-start gate — and as
long as every pointer-down in the sequence is rejected — no drag
context is ever created and no callback is ever emitted: in particular
neither `onDragActivate` nor `onDrop` fires, whatever the pointer
movement. -/
theorem rejected_mousedown_inert (o : Config) (heights : List ℚ) (s : SysState)
    (acts : List Action) (hc : s.context = none)
    (hacts : ∀ e : PointerEvent, Action.mousedown e ∈ acts → o.onBeforeDragStart e = false) :
    (run o heights s acts).context = none ∧ (run o heights s acts).log = s.log := by
  induction acts generalizing s with
  | nil => exact ⟨hc, rfl⟩
  | cons a as ih =>
    have h1 : (step o heights s a).context = none ∧ (step o heights s a).log = s.log := by
      cases a with
      | mousedown e =>
        have hg : o.onBeforeDragStart e = false := hacts e (List.mem_cons_self _ _)
        rw [step_mousedown, onMousedown_not_started o s e (Or.inr (Or.inl hg))]
        exact ⟨hc, rfl⟩
      | mousemove e =>
        rw [step_mousemove, onMousemove_skipped o heights s e (Or.inr hc)]
        exact ⟨hc, rfl⟩
      | mouseup =>
        rw [step_mouseup, onMouseup_skipped s (Or.inr hc)]
        exact ⟨hc, rfl⟩
      | destroy => exact ⟨hc, rfl⟩
    have h2 := ih (step o heights s a) h1.1
      (fun e he => hacts e (List.mem_cons_of_mem _ he))
    rw [run]
    exact ⟨h2.1, h2.2.trans h1.2⟩

/-- A configuration whose pre-start gate always rejects. -/
def rejectingConfig : Config where
  onBeforeDragStart := fun _ => false
  onBeforeDragActivate := fun _ _ _ => true

theorem rejected_mousedown_inert_witness :
    (run rejectingConfig [40, 40, 40] setupState
        [.mousedown ⟨some 1, 0, 0⟩, .mousemove ⟨some 1, 0, 100⟩, .mouseup]).context = none ∧
    (run rejectingConfig [40, 40, 40] setupState
        [.mousedown ⟨some 1, 0, 0⟩, .mousemove ⟨some 1, 0, 100⟩, .mouseup]).log =
      setupState.log :=
  rejected_mousedown_inert rejectingConfig [40, 40, 40] setupState
    [.mousedown ⟨some 1, 0, 0⟩, .mousemove ⟨some 1, 0, 100⟩, .mouseup]
    rfl (fun _ _ => rfl)

end TableDnd
